import Mathlib

/-!
Verification of the sigen signal generator (src/main.rs).

The Rust source synthesizes periodic waveforms and writes them as interleaved
stereo 16-bit PCM. This development embeds the synthesis core shallowly:

* f32 arithmetic on phases and accumulators is modelled by exact rational
  arithmetic (the phase accumulator only adds, subtracts, divides and
  compares), and amplitudes by real numbers (the sine shape needs Real.sin);
* the u32 tick counters become Nat; a Rust cast of a nonnegative float
  to u32 truncates toward zero, i.e. Nat.floor;
* Rust assert macros in Signal::new, Silence::new and combo become explicit
  decidable guard predicates checked at the same program points; a failed
  assert aborts the mode, and the Outcome type records whether the output
  file had already been created at that point (combo creates its writer
  before the per-repetition Signal constructions, plain and modulate after);
* the hound WAV writer is modelled as the list of stereo frames written.

The file lists all definitions first, then all theorems.
-/

namespace Sigen

/-! ## Shapes (src/main.rs lines 7-53) -/

/-- Waveform selector, mirroring the Rust arg_enum Shape with
variants Saw, Sine, Square, Triangle (there is no Silence variant). -/
inductive Shape where
  | Saw
  | Sine
  | Square
  | Triangle
deriving DecidableEq, Repr

/-- Model of gen_sine: sin(2 * pi * x). The Rust function asserts
0 <= x < 1; the phases the program feeds it satisfy this (see the
tick-source range theorem), so the function is modelled total. -/
noncomputable def gen_sine (x : ℚ) : ℝ :=
  Real.sin (2 * Real.pi * (x : ℝ))

/-- Model of gen_square: 1 on [0, 1/2), -1 on [1/2, 1). -/
def gen_square (x : ℚ) : ℝ :=
  if x < 1/2 then 1 else -1

/-- Model of gen_saw: 2 * x - 1. -/
def gen_saw (x : ℚ) : ℝ :=
  2 * (x : ℝ) - 1

/-- Model of gen_triangle: 1 - 4x on [0, 1/2), 4x - 3 on [1/2, 1). -/
def gen_triangle (x : ℚ) : ℝ :=
  if x < 1/2 then 1 - 4 * (x : ℝ) else 4 * (x : ℝ) - 3

/-- Model of Shape::func, dispatching a shape to its generator. -/
noncomputable def Shape.func : Shape → ℚ → ℝ
  | .Saw => gen_saw
  | .Sine => gen_sine
  | .Square => gen_square
  | .Triangle => gen_triangle

/-! ## The phase accumulator (struct Signal, lines 55-95) -/

/-- Model of struct Signal: tick counters as Nat, f32 state as ℚ. -/
structure Signal where
  curr_tick : Nat
  last_tick : Nat
  sample_rate : ℚ
  freq : ℚ
  ts : ℚ
deriving DecidableEq, Repr

/-- The conjunction of the asserts in Signal::new, in source order:
duration >= 0, sample_rate > 0, 0 < freq < sample_rate,
0 <= phase < 360. -/
def SignalNewOK (sample_rate : Nat) (freq duration phase : ℚ) : Prop :=
  0 ≤ duration ∧ 0 < ((sample_rate : ℚ)) ∧
  (0 < freq ∧ freq < (sample_rate : ℚ)) ∧
  (0 ≤ phase ∧ phase < 360)

instance (sample_rate : Nat) (freq duration phase : ℚ) :
    Decidable (SignalNewOK sample_rate freq duration phase) := by
  unfold SignalNewOK; infer_instance

/-- Model of Signal::new (the field initialisation; the asserts are
the SignalNewOK predicate checked by the callers). last_tick is
(duration * sample_rate) cast to u32, i.e. Nat.floor; the initial
accumulator is phase * sample_rate / 360. -/
def Signal.new (sample_rate : Nat) (freq duration phase : ℚ) : Signal :=
  { curr_tick := 0
    last_tick := ⌊duration * (sample_rate : ℚ)⌋₊
    sample_rate := (sample_rate : ℚ)
    freq := freq
    ts := phase * (sample_rate : ℚ) / 360 }

/-- Model of the Iterator::next for Signal: None when exhausted,
otherwise advance the tick counter, wrap the accumulator once if it
reached sample_rate, emit accumulator / sample_rate, then add freq. -/
def Signal.next (s : Signal) : Option (ℚ × Signal) :=
  if s.curr_tick ≥ s.last_tick then
    none
  else
    let w := if s.ts ≥ s.sample_rate then s.ts - s.sample_rate else s.ts
    some (w / s.sample_rate,
      { s with curr_tick := s.curr_tick + 1, ts := w + s.freq })

/-- Driver that runs the iterator to exhaustion, returning the list of
emitted values and the final state (the for loops and zips in the Rust
modes consume the iterator exactly like this). -/
def Signal.run (s : Signal) : List ℚ × Signal :=
  if s.curr_tick ≥ s.last_tick then
    ([], s)
  else
    let w := if s.ts ≥ s.sample_rate then s.ts - s.sample_rate else s.ts
    let s1 : Signal := { s with curr_tick := s.curr_tick + 1, ts := w + s.freq }
    let r := s1.run
    (w / s.sample_rate :: r.1, r.2)
termination_by s.last_tick - s.curr_tick
decreasing_by simp_wf; omega

/-- List of all values a Signal emits before exhaustion. -/
def Signal.toList (s : Signal) : List ℚ :=
  s.run.1

/-- State invariant of the phase accumulator: positive rate, frequency
strictly between 0 and the rate, accumulator in [0, sample_rate + freq). -/
def SigInv (s : Signal) : Prop :=
  0 < s.sample_rate ∧ 0 < s.freq ∧ s.freq < s.sample_rate ∧
  0 ≤ s.ts ∧ s.ts < s.sample_rate + s.freq

/-! ## The silence source (struct Silence, lines 97-124) -/

/-- Model of struct Silence: a bounded iterator of zero samples. -/
structure Silence where
  curr_tick : Nat
  last_tick : Nat
deriving DecidableEq, Repr

/-- The asserts in Silence::new: duration >= 0 and sample_rate > 0. -/
def SilenceNewOK (sample_rate : Nat) (duration : ℚ) : Prop :=
  0 ≤ duration ∧ 0 < ((sample_rate : ℚ))

instance (sample_rate : Nat) (duration : ℚ) :
    Decidable (SilenceNewOK sample_rate duration) := by
  unfold SilenceNewOK; infer_instance

/-- Model of Silence::new. -/
def Silence.new (sample_rate : Nat) (duration : ℚ) : Silence :=
  { curr_tick := 0, last_tick := ⌊duration * (sample_rate : ℚ)⌋₊ }

/-- Model of the Iterator::next for Silence: emits the i16 sample 0
until last_tick samples have been produced. -/
def Silence.next (s : Silence) : Option (ℤ × Silence) :=
  if s.curr_tick ≥ s.last_tick then none
  else some (0, { curr_tick := s.curr_tick + 1, last_tick := s.last_tick })

/-- Driver running the Silence iterator to exhaustion. -/
def Silence.run (s : Silence) : List ℤ :=
  if s.curr_tick ≥ s.last_tick then []
  else 0 :: Silence.run { curr_tick := s.curr_tick + 1, last_tick := s.last_tick }
termination_by s.last_tick - s.curr_tick
decreasing_by simp_wf; omega

/-! ## The quantizer (adjust_volume, lines 126-130) -/

open Classical in
/-- Truncation toward zero of a real number, the semantics of the Rust
cast of an in-range f32 to i16: floor for nonnegative input, ceiling
for negative input. -/
noncomputable def rtrunc (r : ℝ) : ℤ :=
  if 0 ≤ r then ⌊r⌋ else ⌈r⌉

/-- Model of adjust_volume: scale by i16::MAX = 32767 and cast to i16
(truncation toward zero). The Rust assert -1 <= x <= 1 is the
precondition under which the result provably fits in i16. -/
noncomputable def adjust_volume (x : ℝ) : ℤ :=
  rtrunc (x * 32767)

/-! ## Reference shape definitions from the specification -/

/-- Modelled from the spec: reference sine shape sin(2 pi x). -/
noncomputable def sine_ref (x : ℚ) : ℝ :=
  Real.sin (2 * Real.pi * (x : ℝ))

/-- Modelled from the spec: reference square shape, 1 if x < 0.5 else -1. -/
def square_ref (x : ℚ) : ℝ :=
  if x < 1/2 then 1 else -1

/-- Modelled from the spec: reference saw shape 2x - 1. -/
def saw_ref (x : ℚ) : ℝ :=
  2 * (x : ℝ) - 1

/-- Modelled from the spec: reference triangle shape,
1 - 4x if x < 0.5 else 4x - 3. -/
def triangle_ref (x : ℚ) : ℝ :=
  if x < 1/2 then 1 - 4 * (x : ℝ) else 4 * (x : ℝ) - 3

/-! ## The composition modes (plain, combo, modulate, lines 132-220)

The hound WAV writer is modelled as the list of stereo frames written to
the output file. Each mode returns an Outcome: ok with the full frame
list, or panicked when one of the Rust asserts fires, recording whether
the output file had already been created at that point and which frames
had already been written. plain and modulate construct their Signals
(running the construction-time asserts) before creating the writer;
combo asserts shift > 0, then creates the writer, and only then
constructs Signals inside the repetition loop. -/

/-- Result of running one mode against the modelled file system. -/
inductive Outcome where
  | panicked (fileCreated : Bool) (written : List (ℤ × ℤ))
  | ok (written : List (ℤ × ℤ))
deriving DecidableEq, Repr

/-- Stereo frames of one plain-style tone block: left channel at phase 0,
right channel at the given phase, each mapped through the shape function
and the quantizer, zipped into (left, right) frames. -/
noncomputable def toneFrames (rate : Nat) (freq dur phase : ℚ)
    (shape : Shape) : List (ℤ × ℤ) :=
  List.zip
    ((Signal.new rate freq dur 0).toList.map
      (fun x => adjust_volume (Shape.func shape x)))
    ((Signal.new rate freq dur phase).toList.map
      (fun x => adjust_volume (Shape.func shape x)))

/-- Model of fn plain: both Signals are constructed (asserts first) and
only then is the writer created, so an invalid configuration panics with
no file; otherwise the zipped frames are written. -/
noncomputable def plain (rate : Nat) (dur freq phase : ℚ)
    (shape : Shape) : Outcome :=
  if ¬ SignalNewOK rate freq dur 0 then .panicked false []
  else if ¬ SignalNewOK rate freq dur phase then .panicked false []
  else .ok (toneFrames rate freq dur phase shape)

/-- Number of combo repetitions: (360.0 / shift) as usize, a floor for
the positive quotients the asserted shift > 0 produces. -/
def comboRepeats (shift : ℚ) : Nat :=
  ⌊(360 : ℚ) / shift⌋₊

/-- Frames of one combo repetition: a tone block at the given right
phase followed by a silence block on both channels. -/
noncomputable def comboBlockFrames (rate : Nat) (dur1 dur2 freq : ℚ)
    (shape : Shape) (phase : ℚ) : List (ℤ × ℤ) :=
  toneFrames rate freq dur1 phase shape ++
    (Silence.new rate dur2).run.map (fun z => (z, z))

/-- One combo repetition: the asserts of the two Signal constructions
and the Silence construction, then the block frames. -/
noncomputable def comboBlock (rate : Nat) (dur1 dur2 freq : ℚ)
    (shape : Shape) (phase : ℚ) : Option (List (ℤ × ℤ)) :=
  if SignalNewOK rate freq dur1 0 ∧ SignalNewOK rate freq dur1 phase ∧
      SilenceNewOK rate dur2 then
    some (comboBlockFrames rate dur1 dur2 freq shape phase)
  else none

/-- The combo repetition loop, n counting up while r repetitions remain;
acc holds the frames already written. A failed assert inside the loop
panics after the file was created, keeping the frames written so far. -/
noncomputable def comboGo (rate : Nat) (dur1 dur2 freq shift : ℚ)
    (shape : Shape) : Nat → Nat → List (ℤ × ℤ) → Outcome
  | _, 0, acc => .ok acc
  | n, r + 1, acc =>
    match comboBlock rate dur1 dur2 freq shape (shift * (n : ℚ)) with
    | none => .panicked true acc
    | some blk => comboGo rate dur1 dur2 freq shift shape (n + 1) r (acc ++ blk)

/-- Model of fn combo: assert shift > 0, create the writer, then run
comboRepeats shift repetitions with right phases 0, shift, 2*shift, .... -/
noncomputable def combo (rate : Nat) (dur1 dur2 freq shift : ℚ)
    (shape : Shape) : Outcome :=
  if 0 < shift then comboGo rate dur1 dur2 freq shift shape 0 (comboRepeats shift) []
  else .panicked false []

/-- Model of fn modulate: both Signals are constructed before the writer
is created; each zipped phase pair is mapped to the quantized product of
the two shape outputs, written to both channels. -/
noncomputable def modulate (rate : Nat) (dur freq1 freq2 : ℚ)
    (shape1 shape2 : Shape) : Outcome :=
  if ¬ SignalNewOK rate freq1 dur 0 then .panicked false []
  else if ¬ SignalNewOK rate freq2 dur 0 then .panicked false []
  else .ok (((Signal.new rate freq1 dur 0).toList.zip
      (Signal.new rate freq2 dur 0).toList).map
      (fun p =>
        let q := adjust_volume (Shape.func shape1 p.1 * Shape.func shape2 p.2)
        (q, q)))

/-- Total frames the combo loop writes: the concatenation over n of the
repetition blocks at right phases shift * n. -/
noncomputable def comboFrames (rate : Nat) (dur1 dur2 freq shift : ℚ)
    (shape : Shape) : List (ℤ × ℤ) :=
  ((List.range (comboRepeats shift)).map (fun n : Nat =>
    comboBlockFrames rate dur1 dur2 freq shape (shift * (n : ℚ)))).flatten

/-- Model of the shape registry the CLI exposes: possible_values is
Shape::variants() = the four variant names, each name selecting the
corresponding variant; the match is exact (clap rejects any argument not
in possible_values before FromStr runs). -/
def shapeRegistry : List (String × Shape) :=
  [("Saw", Shape.Saw), ("Sine", Shape.Sine),
   ("Square", Shape.Square), ("Triangle", Shape.Triangle)]

/-- Selection of a shape by name through the registry; an unknown name
(silence included) is a configuration error reported before synthesis. -/
def Shape.from_str (s : String) : Option Shape :=
  shapeRegistry.lookup s

/-! ## Iterator lemmas -/

theorem Signal.run_eq_next (s : Signal) :
    s.run = match s.next with
      | none => ([], s)
      | some (t, s1) => (t :: s1.run.1, s1.run.2) := by
  rw [Signal.run.eq_def, Signal.next]
  split
  · simp
  · simp

theorem Signal.run_list_length (s : Signal) :
    s.run.1.length = s.last_tick - s.curr_tick := by
  rw [Signal.run.eq_def]
  split
  · rename_i h
    simp only [List.length_nil]
    omega
  · rename_i h
    simp only [List.length_cons]
    rw [Signal.run_list_length]
    simp only []
    omega
termination_by s.last_tick - s.curr_tick
decreasing_by simp_wf; omega

theorem Signal.run_final_exhausted (s : Signal) :
    s.run.2.curr_tick ≥ s.run.2.last_tick := by
  rw [Signal.run.eq_def]
  split
  · rename_i h
    exact h
  · rename_i h
    exact Signal.run_final_exhausted _
termination_by s.last_tick - s.curr_tick
decreasing_by simp_wf; omega

theorem Signal.next_exhausted (s : Signal) (h : s.curr_tick ≥ s.last_tick) :
    s.next = none := by
  rw [Signal.next]
  simp [h]

theorem Signal.run_mem_Ico (s : Signal) (hInv : SigInv s) :
    ∀ t ∈ s.run.1, 0 ≤ t ∧ t < 1 := by
  obtain ⟨hsr, hf, hfs, hts0, htsu⟩ := hInv
  rw [Signal.run.eq_def]
  split
  · intro t ht
    simp at ht
  · rename_i h
    have hw : 0 ≤ (if s.ts ≥ s.sample_rate then s.ts - s.sample_rate else s.ts) ∧
        (if s.ts ≥ s.sample_rate then s.ts - s.sample_rate else s.ts) < s.sample_rate := by
      split
      · rename_i hge
        constructor
        · linarith
        · linarith
      · rename_i hlt
        push_neg at hlt
        exact ⟨hts0, hlt⟩
    intro t ht
    simp only [List.mem_cons] at ht
    rcases ht with rfl | ht
    · exact ⟨div_nonneg hw.1 hsr.le, (div_lt_one hsr).mpr hw.2⟩
    · have hInv1 : SigInv { s with curr_tick := s.curr_tick + 1, ts := (if s.ts ≥ s.sample_rate then s.ts - s.sample_rate else s.ts) + s.freq } := by
        refine ⟨hsr, hf, hfs, ?_, ?_⟩
        · show 0 ≤ (if s.ts ≥ s.sample_rate then s.ts - s.sample_rate else s.ts) + s.freq
          exact add_nonneg hw.1 hf.le
        · show (if s.ts ≥ s.sample_rate then s.ts - s.sample_rate else s.ts) + s.freq
              < s.sample_rate + s.freq
          linarith [hw.2]
      exact Signal.run_mem_Ico _ hInv1 t ht
termination_by s.last_tick - s.curr_tick
decreasing_by simp_wf; omega

theorem SignalNew_inv (sample_rate : Nat) (freq duration phase : ℚ)
    (hOK : SignalNewOK sample_rate freq duration phase) :
    SigInv (Signal.new sample_rate freq duration phase) := by
  obtain ⟨hd, hsr, ⟨hf0, hfs⟩, hp0, hp1⟩ := hOK
  refine ⟨hsr, hf0, hfs, ?_, ?_⟩
  · exact div_nonneg (mul_nonneg hp0 hsr.le) (by norm_num)
  · have h1 : phase * (sample_rate : ℚ) / 360 < (sample_rate : ℚ) := by
      rw [div_lt_iff₀ (by norm_num : (0:ℚ) < 360)]
      nlinarith
    simp only [Signal.new]
    linarith

theorem Silence.run_eq_replicate (s : Silence) :
    s.run = List.replicate (s.last_tick - s.curr_tick) 0 := by
  rw [Silence.run.eq_def]
  split
  · rename_i h
    have h0 : s.last_tick - s.curr_tick = 0 := by omega
    rw [h0]
    rfl
  · rename_i h
    rw [Silence.run_eq_replicate]
    have h1 : s.last_tick - s.curr_tick = (s.last_tick - (s.curr_tick + 1)) + 1 := by
      omega
    rw [h1, List.replicate_succ]
termination_by s.last_tick - s.curr_tick
decreasing_by simp_wf; omega

theorem Silence.run_count (s : Silence) :
    s.run.length = s.last_tick - s.curr_tick := by
  rw [Silence.run_eq_replicate, List.length_replicate]

/-! ## Quantizer and shape lemmas -/

theorem rtrunc_bounds (r : ℝ) (m : ℤ) (h1 : -(m : ℝ) ≤ r) (h2 : r ≤ (m : ℝ)) :
    -m ≤ rtrunc r ∧ rtrunc r ≤ m := by
  have hm : (0 : ℝ) ≤ (m : ℝ) := by linarith
  unfold rtrunc
  split
  · rename_i h0
    constructor
    · have hge : (0 : ℤ) ≤ ⌊r⌋ := Int.floor_nonneg.mpr h0
      have : (0 : ℤ) ≤ m := by exact_mod_cast hm
      omega
    · have := Int.floor_le_floor h2
      rwa [Int.floor_intCast] at this
  · rename_i h0
    push_neg at h0
    constructor
    · have h1i : (((-m : ℤ)) : ℝ) ≤ r := by push_cast; exact h1
      have := Int.ceil_le_ceil h1i
      rwa [Int.ceil_intCast] at this
    · have hle : ⌈r⌉ ≤ ⌈(0 : ℝ)⌉ := Int.ceil_le_ceil h0.le
      rw [Int.ceil_zero] at hle
      have : (0 : ℤ) ≤ m := by exact_mod_cast hm
      omega

/-- Helper shared by several claims: each shape output has magnitude
at most 1 on the domain [0, 1). -/
theorem abs_shape_func_le_one (sh : Shape) (x : ℚ) (h0 : 0 ≤ x) (h1 : x < 1) :
    |Shape.func sh x| ≤ 1 := by
  have h0r : (0 : ℝ) ≤ (x : ℝ) := by exact_mod_cast h0
  have h1r : (x : ℝ) < 1 := by exact_mod_cast h1
  cases sh
  · rw [Shape.func, gen_saw]
    rw [abs_le]
    constructor <;> linarith
  · rw [Shape.func, gen_sine]
    exact Real.abs_sin_le_one _
  · rw [Shape.func, gen_square]
    split <;> simp
  · rw [Shape.func, gen_triangle]
    split
    · rename_i hx
      have hx2 : (2 : ℚ) * x < 1 := by linarith
      have hxr : (2 : ℝ) * (x : ℝ) < 1 := by exact_mod_cast hx2
      rw [abs_le]
      constructor <;> linarith
    · rename_i hx
      push_neg at hx
      have hx2 : (1 : ℚ) ≤ 2 * x := by linarith
      have hxr : (1 : ℝ) ≤ 2 * (x : ℝ) := by exact_mod_cast hx2
      rw [abs_le]
      constructor <;> linarith

/-- Helper shared by several claims: on amplitudes in [-1, 1] the
quantizer's result lies within the signed 16-bit range. -/
theorem adjust_volume_mem_i16 (x : ℝ) (h1 : -1 ≤ x) (h2 : x ≤ 1) :
    -32768 ≤ adjust_volume x ∧ adjust_volume x ≤ 32767 := by
  have hb := rtrunc_bounds (x * 32767) 32767 (by push_cast; nlinarith)
    (by push_cast; nlinarith)
  rw [adjust_volume]
  omega

/-! ## Mode lemmas -/

theorem toneFrames_length (rate : Nat) (freq dur phase : ℚ) (shape : Shape) :
    (toneFrames rate freq dur phase shape).length = ⌊dur * (rate : ℚ)⌋₊ := by
  rw [toneFrames, List.length_zip]
  simp [Signal.toList, Signal.run_list_length, Signal.new]

theorem comboBlockFrames_length (rate : Nat) (dur1 dur2 freq : ℚ)
    (shape : Shape) (phase : ℚ) :
    (comboBlockFrames rate dur1 dur2 freq shape phase).length
      = ⌊dur1 * (rate : ℚ)⌋₊ + ⌊dur2 * (rate : ℚ)⌋₊ := by
  rw [comboBlockFrames, List.length_append, toneFrames_length, List.length_map,
    Silence.run_count]
  simp [Silence.new]

/-- Helper shared by the combo claims: for every repetition index below
comboRepeats shift the right-channel phase offset stays below 360. -/
theorem combo_phase_lt_360 (shift : ℚ) (hshift : 0 < shift) :
    ∀ n : Nat, n < comboRepeats shift → shift * (n : ℚ) < 360 := by
  intro n hn
  have h1 : ((n : ℚ)) + 1 ≤ ((comboRepeats shift : ℚ)) := by exact_mod_cast hn
  have h2 : ((comboRepeats shift : ℚ)) ≤ (360 : ℚ) / shift :=
    Nat.floor_le (by positivity)
  have h3 : (n : ℚ) < 360 / shift := by linarith
  calc shift * (n : ℚ) < shift * (360 / shift) :=
        mul_lt_mul_of_pos_left h3 hshift
    _ = 360 := by field_simp

theorem comboGo_ok (rate : Nat) (dur1 dur2 freq shift : ℚ) (shape : Shape)
    (G : Nat → List (ℤ × ℤ)) :
    ∀ (r n : Nat) (acc : List (ℤ × ℤ)),
      (∀ k, k < r →
        comboBlock rate dur1 dur2 freq shape (shift * (((n + k : Nat)) : ℚ))
          = some (G (n + k))) →
      comboGo rate dur1 dur2 freq shift shape n r acc
        = .ok (acc ++ ((List.range r).map (fun k => G (n + k))).flatten) := by
  intro r
  induction r with
  | zero =>
    intro n acc _
    simp [comboGo]
  | succ r ih =>
    intro n acc h
    have h0 := h 0 (Nat.succ_pos r)
    simp only [Nat.add_zero] at h0
    rw [show comboGo rate dur1 dur2 freq shift shape n (r + 1) acc
        = (match comboBlock rate dur1 dur2 freq shape (shift * ((n : Nat) : ℚ)) with
          | none => Outcome.panicked true acc
          | some blk => comboGo rate dur1 dur2 freq shift shape (n + 1) r (acc ++ blk))
        from rfl]
    rw [h0]
    show comboGo rate dur1 dur2 freq shift shape (n + 1) r (acc ++ G n) = _
    have h' : ∀ k, k < r →
        comboBlock rate dur1 dur2 freq shape (shift * (((n + 1 + k : Nat)) : ℚ))
          = some (G (n + 1 + k)) := by
      intro k hk
      have e : n + (k + 1) = n + 1 + k := by omega
      have := h (k + 1) (by omega)
      rwa [e] at this
    rw [ih (n + 1) (acc ++ G n) h']
    rw [List.append_assoc]
    congr 1
    rw [List.range_succ_eq_map, List.map_cons, List.flatten_cons, List.map_map]
    congr 2
    congr 1
    apply List.map_congr_left
    intro a _
    congr 1
    omega

/-! ## The claims -/

/-- C1: a Tick source built from a valid configuration emits exactly
floor(duration * sample_rate) values and is then exhausted: the state
after running it to completion answers every further next request with
none (and next never signals an error — its only outcomes are a value
or none). -/
theorem tick_source_length_and_exhaustion (sample_rate : Nat)
    (freq duration phase : ℚ)
    (_hOK : SignalNewOK sample_rate freq duration phase) :
    (Signal.new sample_rate freq duration phase).toList.length
        = ⌊duration * (sample_rate : ℚ)⌋₊ ∧
    (Signal.new sample_rate freq duration phase).run.2.next = none := by
  constructor
  · rw [Signal.toList, Signal.run_list_length]
    simp [Signal.new]
  · exact Signal.next_exhausted _ (Signal.run_final_exhausted _)

theorem tick_source_length_and_exhaustion_witness :
    SignalNewOK 1000 100 1 0 ∧
    ((Signal.new 1000 100 1 0).toList.length = ⌊(1 : ℚ) * ((1000 : Nat) : ℚ)⌋₊ ∧
     (Signal.new 1000 100 1 0).run.2.next = none) :=
  ⟨by decide, tick_source_length_and_exhaustion 1000 100 1 0 (by decide)⟩

/-- C2: every normalized phase value a valid Tick source emits lies in
[0, 1): the accumulator is wrapped once (by subtracting sample_rate)
whenever it reaches or exceeds sample_rate, which restores it below
sample_rate, so the emitted quotient accumulator / sample_rate stays in
the unit interval, and frequency is then added for the next tick. -/
theorem tick_source_values_in_unit_interval (sample_rate : Nat)
    (freq duration phase : ℚ)
    (hOK : SignalNewOK sample_rate freq duration phase) :
    ∀ t ∈ (Signal.new sample_rate freq duration phase).toList,
      0 ≤ t ∧ t < 1 :=
  Signal.run_mem_Ico _ (SignalNew_inv _ _ _ _ hOK)

theorem tick_source_values_in_unit_interval_witness :
    SignalNewOK 1000 100 1 0 ∧
    (∀ t ∈ (Signal.new 1000 100 1 0).toList, 0 ≤ t ∧ t < 1) :=
  ⟨by decide, tick_source_values_in_unit_interval 1000 100 1 0 (by decide)⟩

/-- C6: each shape function of the program coincides with its reference
definition from the specification on the whole domain, and consequently
every shape output on [0, 1) has magnitude at most 1. -/
theorem shape_functions_match_reference_and_bounded :
    (∀ x : ℚ, gen_sine x = sine_ref x) ∧
    (∀ x : ℚ, gen_square x = square_ref x) ∧
    (∀ x : ℚ, gen_saw x = saw_ref x) ∧
    (∀ x : ℚ, gen_triangle x = triangle_ref x) ∧
    (∀ (sh : Shape) (x : ℚ), 0 ≤ x → x < 1 → |Shape.func sh x| ≤ 1) :=
  ⟨fun _ => rfl, fun _ => rfl, fun _ => rfl, fun _ => rfl,
   fun sh x h0 h1 => abs_shape_func_le_one sh x h0 h1⟩

theorem shape_functions_match_reference_and_bounded_witness :
    |Shape.func Shape.Saw (1/2)| ≤ 1 :=
  shape_functions_match_reference_and_bounded.2.2.2.2 Shape.Saw (1/2)
    (by norm_num) (by norm_num)

/-- C7: on amplitudes in [-1, 1] the quantizer computes truncation
toward zero of amplitude * 32767 (floor for nonnegative input, ceiling
for negative input, never rounding away from zero), and the result
always fits in the signed 16-bit range. -/
theorem adjust_volume_truncates_toward_zero_and_fits_i16 (x : ℝ)
    (h1 : -1 ≤ x) (h2 : x ≤ 1) :
    (0 ≤ x → adjust_volume x = ⌊x * 32767⌋) ∧
    (x < 0 → adjust_volume x = ⌈x * 32767⌉) ∧
    (-32768 ≤ adjust_volume x ∧ adjust_volume x ≤ 32767) := by
  refine ⟨?_, ?_, ?_⟩
  · intro h0
    rw [adjust_volume, rtrunc, if_pos (by positivity)]
  · intro h0
    have : ¬ (0 : ℝ) ≤ x * 32767 := by nlinarith
    rw [adjust_volume, rtrunc, if_neg this]
  · have hb := rtrunc_bounds (x * 32767) 32767 (by push_cast; nlinarith)
      (by push_cast; nlinarith)
    rw [adjust_volume]
    omega

theorem adjust_volume_truncates_toward_zero_and_fits_i16_witness :
    (0 ≤ (1/2 : ℝ) → adjust_volume (1/2) = ⌊(1/2 : ℝ) * 32767⌋) ∧
    ((1/2 : ℝ) < 0 → adjust_volume (1/2) = ⌈(1/2 : ℝ) * 32767⌉) ∧
    (-32768 ≤ adjust_volume (1/2) ∧ adjust_volume (1/2) ≤ 32767) :=
  adjust_volume_truncates_toward_zero_and_fits_i16 (1/2) (by norm_num)
    (by norm_num)

/-- C10: in combo mode with positive shift, every repetition index n
below comboRepeats shift yields a right-channel phase offset
shift * n that satisfies the Signal constructor's precondition, so no
construction-time check can fail mid-synthesis on the phase. -/
theorem combo_phase_offsets_satisfy_precondition (rate : Nat)
    (dur1 freq shift : ℚ) (hshift : 0 < shift)
    (hOK : SignalNewOK rate freq dur1 0) :
    ∀ n : Nat, n < comboRepeats shift →
      SignalNewOK rate freq dur1 (shift * (n : ℚ)) := by
  intro n hn
  obtain ⟨hd, hsr, hfs, _, _⟩ := hOK
  exact ⟨hd, hsr, hfs, mul_nonneg hshift.le (Nat.cast_nonneg n),
    combo_phase_lt_360 shift hshift n hn⟩

theorem combo_phase_offsets_satisfy_precondition_witness :
    (0 : ℚ) < 90 ∧ SignalNewOK 1000 100 1 0 ∧ 3 < comboRepeats 90 ∧
    SignalNewOK 1000 100 1 (90 * ((3 : Nat) : ℚ)) := by
  have hrep : comboRepeats (90 : ℚ) = 4 := by
    rw [comboRepeats, (by norm_num : (360 : ℚ) / 90 = (4 : ℚ))]
    simp
  refine ⟨by norm_num, by decide, by rw [hrep]; norm_num, ?_⟩
  exact combo_phase_offsets_satisfy_precondition 1000 1 100 90 (by norm_num)
    (by decide) 3 (by rw [hrep]; norm_num)

/-- C3: with a valid configuration and positive shift, combo produces
exactly comboRepeats shift = floor(360 / shift) repetitions, the nth
consisting of a tone block at phase offsets (0, shift * n) followed by
a silence block, for a total of
repeats * (floor(dur1 * rate) + floor(dur2 * rate)) stereo frames;
a shift above 360 gives zero repetitions and an empty output. -/
theorem combo_runs_repeats_blocks_with_total_frames (rate : Nat)
    (dur1 dur2 freq shift : ℚ) (shape : Shape)
    (hsig : SignalNewOK rate freq dur1 0) (hsil : SilenceNewOK rate dur2)
    (hshift : 0 < shift) :
    combo rate dur1 dur2 freq shift shape
        = .ok (comboFrames rate dur1 dur2 freq shift shape) ∧
    (comboFrames rate dur1 dur2 freq shift shape).length
        = comboRepeats shift * (⌊dur1 * (rate : ℚ)⌋₊ + ⌊dur2 * (rate : ℚ)⌋₊) ∧
    (360 < shift → comboRepeats shift = 0) := by
  refine ⟨?_, ?_, ?_⟩
  · have hblocks : ∀ k, k < comboRepeats shift →
        comboBlock rate dur1 dur2 freq shape (shift * (((0 + k : Nat)) : ℚ))
          = some ((fun m : Nat =>
              comboBlockFrames rate dur1 dur2 freq shape (shift * (m : ℚ))) (0 + k)) := by
      intro k hk
      simp only [Nat.zero_add]
      rw [comboBlock, if_pos]
      obtain ⟨hd, hsr, hfs, hz0, hz1⟩ := hsig
      exact ⟨⟨hd, hsr, hfs, hz0, hz1⟩,
        ⟨hd, hsr, hfs, mul_nonneg hshift.le (Nat.cast_nonneg k),
          combo_phase_lt_360 shift hshift k hk⟩, hsil⟩
    rw [combo, if_pos hshift,
      comboGo_ok rate dur1 dur2 freq shift shape
        (fun m : Nat => comboBlockFrames rate dur1 dur2 freq shape (shift * (m : ℚ)))
        (comboRepeats shift) 0 [] hblocks,
      comboFrames]
    simp only [List.nil_append, Nat.zero_add]
  · rw [comboFrames, List.length_flatten, List.map_map]
    have hconst : (List.length ∘ fun n : Nat =>
        comboBlockFrames rate dur1 dur2 freq shape (shift * (n : ℚ)))
        = fun _ : Nat => ⌊dur1 * (rate : ℚ)⌋₊ + ⌊dur2 * (rate : ℚ)⌋₊ := by
      funext a
      exact comboBlockFrames_length rate dur1 dur2 freq shape _
    rw [hconst, List.map_const', List.sum_replicate, List.length_range, smul_eq_mul]
  · intro h360
    rw [comboRepeats]
    rw [Nat.floor_eq_zero]
    rw [div_lt_one hshift]
    linarith

theorem combo_runs_repeats_blocks_with_total_frames_witness :
    SignalNewOK 8000 100 1 0 ∧ SilenceNewOK 8000 2 ∧ (0 : ℚ) < 90 ∧
    (combo 8000 1 2 100 90 Shape.Sine
        = .ok (comboFrames 8000 1 2 100 90 Shape.Sine) ∧
     (comboFrames 8000 1 2 100 90 Shape.Sine).length
        = comboRepeats 90 * (⌊(1 : ℚ) * ((8000 : Nat) : ℚ)⌋₊ + ⌊(2 : ℚ) * ((8000 : Nat) : ℚ)⌋₊) ∧
     (360 < (90 : ℚ) → comboRepeats 90 = 0)) :=
  ⟨by decide, by decide, by norm_num,
   combo_runs_repeats_blocks_with_total_frames 8000 1 2 100 90
     Shape.Sine (by decide) (by decide) (by norm_num)⟩

/-- C8: plain mode invoked with phase 0 builds both channels from
identical Tick sources, so the resulting stereo frames have equal left
and right samples. -/
theorem plain_zero_phase_channels_identical (rate : Nat) (dur freq : ℚ)
    (shape : Shape) (hOK : SignalNewOK rate freq dur 0) :
    ∃ l, plain rate dur freq 0 shape = .ok l ∧ ∀ p ∈ l, p.1 = p.2 := by
  refine ⟨toneFrames rate freq dur 0 shape, ?_, ?_⟩
  · rw [plain, if_neg (not_not_intro hOK), if_neg (not_not_intro hOK)]
  · intro p hp
    rw [toneFrames] at hp
    revert p hp
    generalize ((Signal.new rate freq dur 0).toList.map
      (fun x => adjust_volume (Shape.func shape x))) = l
    induction l with
    | nil => intro p hp; simp at hp
    | cons a l ih =>
      intro p hp
      rw [List.zip_cons_cons] at hp
      rcases List.mem_cons.mp hp with rfl | hp
      · rfl
      · exact ih p hp

theorem plain_zero_phase_channels_identical_witness :
    SignalNewOK 1000 100 1 0 ∧
    (∃ l, plain 1000 1 100 0 Shape.Square = .ok l ∧ ∀ p ∈ l, p.1 = p.2) :=
  ⟨by decide, plain_zero_phase_channels_identical 1000 1 100 Shape.Square (by decide)⟩

/-- C5: for phases in [0,1) the product of two shape outputs lies in
[-1, 1], so the quantizer's input-range assert never fails and the
quantized product fits the signed 16-bit range; and modulate emits the
single quantized value to both channels of every frame. -/
theorem modulate_product_bounded_and_channels_identical (rate : Nat)
    (dur freq1 freq2 : ℚ) (shape1 shape2 : Shape)
    (h1 : SignalNewOK rate freq1 dur 0) (h2 : SignalNewOK rate freq2 dur 0) :
    (∀ p1 p2 : ℚ, 0 ≤ p1 → p1 < 1 → 0 ≤ p2 → p2 < 1 →
      (-1 ≤ Shape.func shape1 p1 * Shape.func shape2 p2 ∧
        Shape.func shape1 p1 * Shape.func shape2 p2 ≤ 1) ∧
      (-32768 ≤ adjust_volume (Shape.func shape1 p1 * Shape.func shape2 p2) ∧
        adjust_volume (Shape.func shape1 p1 * Shape.func shape2 p2) ≤ 32767)) ∧
    (∃ l, modulate rate dur freq1 freq2 shape1 shape2 = .ok l ∧
      ∀ p ∈ l, p.1 = p.2) := by
  constructor
  · intro p1 p2 hp1 hp1u hp2 hp2u
    have hb1 := abs_shape_func_le_one shape1 p1 hp1 hp1u
    have hb2 := abs_shape_func_le_one shape2 p2 hp2 hp2u
    have hprod : |Shape.func shape1 p1 * Shape.func shape2 p2| ≤ 1 := by
      rw [abs_mul]
      exact mul_le_one₀ hb1 (abs_nonneg _) hb2
    have hprod' := abs_le.mp hprod
    exact ⟨hprod', adjust_volume_mem_i16 _ hprod'.1 hprod'.2⟩
  · refine ⟨((Signal.new rate freq1 dur 0).toList.zip
        (Signal.new rate freq2 dur 0).toList).map
        (fun p => (adjust_volume (Shape.func shape1 p.1 * Shape.func shape2 p.2),
          adjust_volume (Shape.func shape1 p.1 * Shape.func shape2 p.2))), ?_, ?_⟩
    · rw [modulate, if_neg (not_not_intro h1), if_neg (not_not_intro h2)]
    · intro p hp
      rcases List.mem_map.mp hp with ⟨a, _, rfl⟩
      rfl

theorem modulate_product_bounded_and_channels_identical_witness :
    SignalNewOK 1000 100 1 0 ∧ SignalNewOK 1000 200 1 0 ∧
    ((-1 ≤ Shape.func Shape.Square 0 * Shape.func Shape.Triangle 0 ∧
        Shape.func Shape.Square 0 * Shape.func Shape.Triangle 0 ≤ 1) ∧
      (-32768 ≤ adjust_volume (Shape.func Shape.Square 0 * Shape.func Shape.Triangle 0) ∧
        adjust_volume (Shape.func Shape.Square 0 * Shape.func Shape.Triangle 0) ≤ 32767)) ∧
    (∃ l, modulate 1000 1 100 200 Shape.Square Shape.Triangle = .ok l ∧
      ∀ p ∈ l, p.1 = p.2) := by
  have h := modulate_product_bounded_and_channels_identical 1000 1 100 200
    Shape.Square Shape.Triangle (by decide) (by decide)
  exact ⟨by decide, by decide,
    h.1 0 0 (by norm_num) (by norm_num) (by norm_num) (by norm_num), h.2⟩

/-- C4 counterexample: combo invoked with an invalid frequency (freq = 2
at sample rate 1, violating freq < sample_rate) still creates the output
file: the writer is created before the per-repetition Signal
construction runs its asserts, so the panic leaves an (empty) file
behind, contradicting the claim that failed validation prevents any
output file from being created. -/
theorem combo_creates_file_despite_invalid_config :
    ¬ SignalNewOK 1 2 1 0 ∧
    combo 1 1 0 2 90 Shape.Square = Outcome.panicked true [] := by
  constructor
  · decide
  · rw [combo, if_pos (by norm_num : (0 : ℚ) < 90)]
    have hrep : comboRepeats (90 : ℚ) = 4 := by
      rw [comboRepeats, (by norm_num : (360 : ℚ) / 90 = (4 : ℚ))]
      simp
    rw [hrep]
    rw [show comboGo 1 1 0 2 90 Shape.Square 0 4 []
        = (match comboBlock 1 1 0 2 Shape.Square (90 * ((0 : Nat) : ℚ)) with
          | none => Outcome.panicked true []
          | some blk => comboGo 1 1 0 2 90 Shape.Square 1 3 ([] ++ blk))
        from rfl]
    rw [show comboBlock 1 1 0 2 Shape.Square (90 * ((0 : Nat) : ℚ)) = none by
      rw [comboBlock, if_neg]
      intro hc
      exact absurd hc.1 (by decide)]

/-- C4 amended: in plain and modulate modes every invalid configuration
is detected before the output file is created (the failure leaves no
file, not even a partial one); in combo mode only the phase-step
positivity check precedes file creation — the remaining parameter
validation runs inside the repetition loop, after the file exists. -/
theorem validation_precedes_output_in_plain_and_modulate (rate : Nat)
    (dur freq phase dur2 freq2 shift : ℚ) (shape shape2 : Shape) :
    (¬ SignalNewOK rate freq dur 0 ∨ ¬ SignalNewOK rate freq dur phase →
      plain rate dur freq phase shape = .panicked false []) ∧
    (¬ SignalNewOK rate freq dur 0 ∨ ¬ SignalNewOK rate freq2 dur 0 →
      modulate rate dur freq freq2 shape shape2 = .panicked false []) ∧
    (¬ 0 < shift → combo rate dur dur2 freq shift shape = .panicked false []) := by
  refine ⟨?_, ?_, ?_⟩
  · intro hbad
    by_cases hA : SignalNewOK rate freq dur 0
    · have hB : ¬ SignalNewOK rate freq dur phase := hbad.resolve_left (not_not_intro hA)
      rw [plain, if_neg (not_not_intro hA), if_pos hB]
    · rw [plain, if_pos hA]
  · intro hbad
    by_cases hA : SignalNewOK rate freq dur 0
    · have hB : ¬ SignalNewOK rate freq2 dur 0 := hbad.resolve_left (not_not_intro hA)
      rw [modulate, if_neg (not_not_intro hA), if_pos hB]
    · rw [modulate, if_pos hA]
  · intro hs
    rw [combo, if_neg hs]

theorem validation_precedes_output_in_plain_and_modulate_witness :
    plain 0 1 1 0 Shape.Square = .panicked false [] ∧
    modulate 0 1 1 1 Shape.Square Shape.Square = .panicked false [] ∧
    combo 0 1 1 1 (-5) Shape.Square = .panicked false [] := by
  have h := validation_precedes_output_in_plain_and_modulate 0 1 1 0 1 1 (-5)
    Shape.Square Shape.Square
  exact ⟨h.1 (Or.inl (by decide)), h.2.1 (Or.inl (by decide)), h.2.2 (by norm_num)⟩

/-- C9 counterexample: the shape registry has no entry for silence —
parsing the name silence fails, so silence cannot be selected as a
shape (in particular not as shape_2 of modulate). -/
theorem silence_not_in_shape_registry :
    Shape.from_str ("silence") = none :=
  rfl

/-- C9 amended: the registry maps exactly the four waveform names to
implementations and rejects everything else, including silence, before
synthesis starts; silence output is instead produced by the dedicated
Silence source used in combo mode, every sample of which is zero. -/
theorem shape_registry_four_names_and_silence_source_zero :
    Shape.from_str ("Saw") = some Shape.Saw ∧
    Shape.from_str ("Sine") = some Shape.Sine ∧
    Shape.from_str ("Square") = some Shape.Square ∧
    Shape.from_str ("Triangle") = some Shape.Triangle ∧
    Shape.from_str ("silence") = none ∧
    Shape.from_str ("Silence") = none ∧
    (∀ (rate : Nat) (dur : ℚ), ∀ z ∈ (Silence.new rate dur).run, z = 0) := by
  refine ⟨rfl, rfl, rfl, rfl, rfl, rfl, ?_⟩
  intro rate dur z hz
  rw [Silence.run_eq_replicate] at hz
  exact List.eq_of_mem_replicate hz

theorem shape_registry_four_names_and_silence_source_zero_witness :
    (0 : ℤ) = 0 :=
  shape_registry_four_names_and_silence_source_zero.2.2.2.2.2.2 1 1 0 (by
    rw [Silence.run_eq_replicate]
    refine List.mem_replicate.mpr ⟨?_, rfl⟩
    simp [Silence.new])

end Sigen
